import Mathlib

/-!
Verification development for the Data_Collector OHLCV system.

This file shallowly embeds the parts of `sessions.py`, `data_validator.py`
and `ohlcv_collector.py` that the specification claims are about, and
settles each claim with a theorem.

Time model: timestamps are integer minutes since a fixed epoch placed at a
Monday 00:00 UTC, so that `weekday` below agrees with Python
`datetime.weekday()` (Monday = 0, ..., Sunday = 6).  Every session profile
in the source `SESSIONS` table has timezone "UTC", so the `astimezone`
calls in `closed_window` are the identity and the embedding works directly
in UTC minutes.  Bars carry minute-resolution timestamps, matching the
data model.  Prices are embedded as integers; the claims treated here only
compare prices (`<`, `= 0`), never compute with them.
-/

namespace DataCollector

/-! Character-level string helpers.  They implement the Python string
operations the source uses (`lower`, `upper`, slicing, `isalpha`, `len`)
on the character list underlying a Lean string; the core `String`
functions are byte-position based and do not reduce in the kernel. -/

/-- Python `str.lower` (ASCII, which is all the source applies it to). -/
def strToLower (s : String) : String := ⟨s.data.map Char.toLower⟩

/-- Python `str.upper` (ASCII, which is all the source applies it to). -/
def strToUpper (s : String) : String := ⟨s.data.map Char.toUpper⟩

/-- Python slice `s[:n]`. -/
def strTake (s : String) (n : Nat) : String := ⟨s.data.take n⟩

/-- Python slice `s[n:]`. -/
def strDrop (s : String) (n : Nat) : String := ⟨s.data.drop n⟩

/-- Python `str.isalpha` restricted to ASCII letters; every symbol key in
the repository is ASCII. -/
def strAllAlpha (s : String) : Bool := s.data.all Char.isAlpha

/-- Python `len` on a string. -/
def strLen (s : String) : Nat := s.data.length

/-- Python weekday of a timestamp given in minutes since a Monday 00:00:
Monday = 0, ..., Sunday = 6. -/
def weekday (t : Int) : Int := (t.ediv 1440).emod 7

/-- Midnight (00:00) of the calendar day containing `t`, i.e. the result of
`datetime.replace` with hour/minute zero. -/
def dayStart (t : Int) : Int := t.ediv 1440 * 1440

/-- Calendar-day index of timestamp `t` (Python `date()`). -/
def dayIndex (t : Int) : Int := t.ediv 1440

/-! ### Embedding of `sessions.py` -/

/-- Source `TF_TO_MINUTES`: timeframe string to nominal duration in minutes. -/
def TF_TO_MINUTES : List (String × Nat) :=
  [("1m", 1), ("5m", 5), ("15m", 15), ("1h", 60), ("4h", 240),
   ("1d", 1440), ("1W", 10080), ("1mo", 43200), ("3mo", 129600)]

/-- Source `tf_minutes`: duration lookup defaulting to a huge number for
unknown timeframes (so that unknown timeframes skip maintenance breaks). -/
def tf_minutes (timeframe : String) : Nat :=
  match TF_TO_MINUTES.lookup timeframe with
  | some m => m
  | none => 10 ^ 9

/-- The USD-based asset keys recognised by `get_symbol_currencies`. -/
def usdAssets : List String :=
  ["gold", "silver", "natgas", "spy", "nasdaq", "sp500", "oil", "copper", "btc", "eth"]

/-- Source `get_symbol_currencies`: a six-letter alphabetic symbol yields
the set of its two three-letter halves (upper-cased); the listed USD assets
yield {USD}; anything else yields the empty set.  The Python function
returns a set; here a duplicate-free list. -/
def get_symbol_currencies (symbol : String) : List String :=
  if strLen symbol == 6 && strAllAlpha symbol then
    let a := strToUpper (strTake symbol 3)
    let b := strToUpper (strDrop symbol 3)
    if a = b then [a] else [a, b]
  else if usdAssets.contains symbol then ["USD"]
  else []

/-- A parsed `SESSIONS` entry: weekend closure as (weekday, minutes-of-day)
pairs and the list of daily maintenance breaks in minutes of day.  The
timezone field is omitted because every entry in the source table is
"UTC". -/
structure SessionCfg where
  wkFromDay : Int
  wkFromTime : Int
  wkToDay : Int
  wkToTime : Int
  dailyBreaks : List (Int × Int)
deriving DecidableEq

/-- Source `symbol_map` in `closed_window`: directory key to Yahoo symbol. -/
def symbol_map : List (String × String) :=
  [("eurusd", "EURUSD=X"), ("gbpusd", "GBPUSD=X"), ("usdjpy", "USDJPY=X"),
   ("usdchf", "USDCHF=X"), ("audusd", "AUDUSD=X"), ("eurgbp", "EURGBP=X"),
   ("eurjpy", "EURJPY=X"), ("gbpjpy", "GBPJPY=X"), ("eurchf", "EURCHF=X"),
   ("gold", "GC=F"), ("silver", "SI=F"), ("oil", "CL=F"),
   ("natgas", "NG=F"), ("copper", "HG=F"),
   ("sp500", "ES=F"), ("nasdaq", "NQ=F"), ("spy", "SPY")]

/-- FX pairs: weekend Fri 22:00 to Sun 22:00 UTC, daily break 05:00-06:00. -/
def fxCfg : SessionCfg := ⟨4, 1320, 6, 1320, [(300, 360)]⟩

/-- CME metals, energies and index futures: weekend Fri 21:00 to Sun 21:00
UTC, daily break 21:00-22:00. -/
def cmeCfg : SessionCfg := ⟨4, 1260, 6, 1260, [(1260, 1320)]⟩

/-- SPY: weekend Fri 20:00 to Sun 20:00 UTC, market open 13:30-20:00 UTC
expressed as two daily breaks. -/
def spyCfg : SessionCfg := ⟨4, 1200, 6, 1200, [(0, 810), (1200, 1439)]⟩

/-- Source `SESSIONS` table, with weekday/time strings parsed to numbers.
The `BTC-USD` and `ETH-USD` entries of the source dictionary carry only a
timezone and no weekend or break fields; `closed_window` can never reach
them because `symbol_map` has no btc/eth key, so they are omitted. -/
def SESSIONS : List (String × SessionCfg) :=
  [("EURUSD=X", fxCfg), ("GBPUSD=X", fxCfg), ("USDJPY=X", fxCfg),
   ("USDCHF=X", fxCfg), ("AUDUSD=X", fxCfg), ("EURGBP=X", fxCfg),
   ("EURJPY=X", fxCfg), ("GBPJPY=X", fxCfg), ("EURCHF=X", fxCfg),
   ("GC=F", cmeCfg), ("CL=F", cmeCfg), ("SI=F", cmeCfg),
   ("HG=F", cmeCfg), ("NG=F", cmeCfg),
   ("ES=F", cmeCfg), ("NQ=F", cmeCfg),
   ("SPY", spyCfg)]

/-- The session profile `closed_window` uses for a symbol key: map the key
through `symbol_map` and look the Yahoo symbol up in `SESSIONS`. -/
def cfgOf (sym : String) : Option SessionCfg :=
  (symbol_map.lookup (strToLower sym)).bind SESSIONS.lookup

/-- The guard on maintenance breaks in `closed_window`: with a timeframe
given, a break is skipped exactly when the nominal bar length is longer
than the break duration `raw_minutes = ((end - start) mod 1440)`. -/
def break_skipped (timeframe : Option String) (brk : Int × Int) : Bool :=
  let raw := (brk.2 - brk.1).emod 1440
  match timeframe with
  | some tf => decide ((tf_minutes tf : Int) > raw)
  | none => false

/-- Weekly-closure start computed by `closed_window`: roll `start` back to
the configured weekday (by whole days) and set the configured time of
day. -/
def weekendStartOf (cfg : SessionCfg) (startT : Int) : Int :=
  let daysBack := (weekday startT - cfg.wkFromDay).emod 7
  dayStart (startT - daysBack * 1440) + cfg.wkFromTime

/-- Weekly-closure end computed by `closed_window`: add the configured day
span to the closure start and set the configured end time of day. -/
def weekendEndOf (cfg : SessionCfg) (startT : Int) : Int :=
  let span := (cfg.wkToDay - cfg.wkFromDay).emod 7
  dayStart (weekendStartOf cfg startT + span * 1440) + cfg.wkToTime

/-- Maintenance-break window placed on the same UTC day as `start`, as
computed by `closed_window` (the source does not wrap the window across
midnight; only the duration `raw_minutes` is wrapped). -/
def breakWindow (startT : Int) (brk : Int × Int) : Int × Int :=
  (dayStart startT + brk.1, dayStart startT + brk.2)

/-- Weekend-start of the FX fallback in `closed_window`: roll `start` back
to the most recent Friday calendar day and set the time to 22:00 UTC.
When `start` falls on a Friday before 22:00 this lies after `start`. -/
def fxWeekendStart (startT : Int) : Int :=
  dayStart (startT - ((weekday startT - 4).emod 7) * 1440) + 1320

/-- Source `closed_window`: check whether a time window overlaps a
scheduled market closure.  An instrument with a `SESSIONS` profile tests
half-open overlap with the weekly closure and with each non-skipped daily
break; a two-currency instrument without a profile tests overlap with the
Friday 22:00 UTC + 48h fallback window; anything else is always open. -/
def closed_window (sym : String) (startT endT : Int) (timeframe : Option String) : Bool :=
  match cfgOf sym with
  | some cfg =>
    if startT < weekendEndOf cfg startT ∧ weekendStartOf cfg startT < endT then true
    else
      cfg.dailyBreaks.any fun brk =>
        if break_skipped timeframe brk then false
        else decide (startT < (breakWindow startT brk).2 ∧ (breakWindow startT brk).1 < endT)
  | none =>
    if (get_symbol_currencies sym).length == 2 then
      decide (startT < fxWeekendStart startT + 2880 ∧ fxWeekendStart startT < endT)
    else false

/-- All closure windows `closed_window` tests the queried interval against,
computed relative to the query start: the weekly closure and the
non-skipped daily breaks for profiled instruments, the Friday 22:00 + 48h
fallback window for two-currency instruments without a profile. -/
def modelWindows (sym : String) (startT : Int) (timeframe : Option String) : List (Int × Int) :=
  match cfgOf sym with
  | some cfg =>
    (weekendStartOf cfg startT, weekendEndOf cfg startT) ::
      (cfg.dailyBreaks.filter fun brk => !(break_skipped timeframe brk)).map (breakWindow startT)
  | none =>
    if (get_symbol_currencies sym).length == 2 then
      [(fxWeekendStart startT, fxWeekendStart startT + 2880)]
    else []

/-! ### Embedding of the holiday check in `data_validator.py` -/

/-- The currency keys of the source `HOLIDAY_CALENDARS` dictionary. -/
def supportedHolidayCurrencies : List String :=
  ["USD", "GBP", "EUR", "JPY", "CHF", "AUD"]

/-- Source `is_holiday` in `data_validator.py`.  The calendar contents are
external data (the `holidays` package, §6 of the spec), passed here as a
function from currency and calendar-day index to Bool.  The source tests
only the calendar date of the single timestamp it is given. -/
def is_holiday (cal : String → Int → Bool) (t : Int) (symbol : String) : Bool :=
  (get_symbol_currencies symbol).any fun c =>
    supportedHolidayCurrencies.contains c && cal c (dayIndex t)

/-- The combined closure test `validate_csv` applies to a gap or staleness
window: `closed_window(symbol, start, end, timeframe) or is_holiday(start,
symbol)`. -/
def closed_or_holiday (cal : String → Int → Bool) (sym : String) (startT endT : Int)
    (timeframe : Option String) : Bool :=
  closed_window sym startT endT timeframe || is_holiday cal startT sym

/-- A holiday calendar with no holidays at all, one admissible value of the
external calendar data. -/
def emptyCal : String → Int → Bool := fun _ _ => false

/-! ### Specification-side definitions

These two definitions follow the words of the specification, not the code;
they exist to state refutations of claims C1 and C3 against the code-level
`closed_window`. -/

/-- Specification-side notion for claim C1: an instant is covered by
scheduled unavailability when it lies inside one of the closure windows
modelled for its instrument (weekly closure or non-skipped maintenance
break, via `modelWindows`), or its calendar day is a holiday for the
instrument.  An interval is "fully explained by scheduled unavailability"
exactly when every instant of it is covered in this sense. -/
def spec_instant_closed (cal : String → Int → Bool) (sym : String) (t : Int)
    (timeframe : Option String) : Bool :=
  (modelWindows sym t timeframe).any (fun w => decide (w.1 ≤ t ∧ t < w.2)) ||
    is_holiday cal t sym

/-- Specification-side notion for claim C3: the most recent Friday 22:00
UTC instant at or before `t` (the code instead uses `fxWeekendStart`,
which can lie after `t`). -/
def spec_lastFri22 (t : Int) : Int :=
  if fxWeekendStart t ≤ t then fxWeekendStart t else fxWeekendStart t - 10080

/-! ### Series Store embedding (`ohlcv_collector.py`) -/

/-- One OHLCV bar: minute-resolution UTC timestamp (per the data model)
and the Open/High/Low/Close/Volume columns as `op`/`hi`/`lo`/`cl`/`vol`. -/
structure Bar where
  ts : Int
  op : Int
  hi : Int
  lo : Int
  cl : Int
  vol : Int
deriving DecidableEq

/-- Whether some bar with timestamp `t` occurs in `l` (the pandas
membership tests on the Datetime column). -/
def tsMem (t : Int) (l : List Bar) : Bool := l.any fun b => b.ts == t

/-- pandas `drop_duplicates(subset=Datetime, keep=last)`: a row is kept
exactly when no later row carries the same timestamp; the kept rows stay
in their original order. -/
def dedupKeepLast : List Bar → List Bar
  | [] => []
  | b :: rest => if tsMem b.ts rest then dedupKeepLast rest else b :: dedupKeepLast rest

/-- The bad-row test of `_save_data` (and of the backfill sanitising):
High < Low, or a zero High, or a zero Low. -/
def badRow (b : Bar) : Bool := decide (b.hi < b.lo) || b.hi == 0 || b.lo == 0

/-- Timestamp order on bars. -/
def barLE (a b : Bar) : Prop := a.ts ≤ b.ts

instance : DecidableRel barLE := fun a b => inferInstanceAs (Decidable (a.ts ≤ b.ts))

instance : IsTotal Bar barLE := ⟨fun a b => Int.le_total a.ts b.ts⟩

instance : IsTrans Bar barLE := ⟨fun _ _ _ => Int.le_trans⟩

/-- pandas `sort_values(Datetime)`.  Every sort in the source acts on a
timestamp-unique frame (each one follows a drop-duplicates), so all
comparison sorts compute the same list; insertion sort is used here. -/
def sortBars (l : List Bar) : List Bar := List.insertionSort barLE l

/-- Source `_save_data`: parse timestamps, drop duplicate timestamps
keeping the last occurrence, drop bad rows, sort ascending, write the
file.  `_load_existing_data` reads exactly this list back. -/
def save_data (l : List Bar) : List Bar :=
  sortBars ((dedupKeepLast l).filter fun b => !(badRow b))

/-- The Series Store merge of `_load_symbol_timeframe`: concatenate
existing and new bars, drop duplicate timestamps keeping the last, sort,
and persist the result through `_save_data`. -/
def merge_series (existing newBars : List Bar) : List Bar :=
  save_data (sortBars (dedupKeepLast (existing ++ newBars)))

/-- Proof device for the store lemmas: the last bar of `l` carrying
timestamp `t`, if any.  `dedupKeepLast` keeps exactly the bars this
function returns. -/
def lastAt : List Bar → Int → Option Bar
  | [], _ => none
  | b :: rest, t =>
    match lastAt rest t with
    | some x => some x
    | none => if b.ts = t then some b else none

/-! ### Gap detector embedding (`validate_csv` in `data_validator.py`) -/

/-- Source `INTERVAL_MINUTES` (its entries coincide with
`TF_TO_MINUTES`); it is only ever consulted under the intraday guard, so
the zero default is unreachable. -/
def interval_minutes (tf : String) : Nat :=
  match TF_TO_MINUTES.lookup tf with
  | some m => m
  | none => 0

/-- The intraday timeframes subject to the gap scan. -/
def intradayTimeframes : List String := ["1m", "5m", "15m", "1h", "4h"]

/-- Crypto test in `validate_csv` and `update_symbol_timeframe` key space:
the symbol key, lower-cased, is btc or eth. -/
def isCryptoSym (symbol : String) : Bool :=
  strToLower symbol == "btc" || strToLower symbol == "eth"

/-- Source `max_allowed_gap` in minutes: two nominal intervals on "1m",
one nominal interval otherwise. -/
def max_allowed_gap (tf : String) : Int :=
  (interval_minutes tf : Int) * (if tf == "1m" then 2 else 1)

/-- Consecutive pairs of a list: the index walk `i-1, i` of
`validate_csv`. -/
def consecPairs : List Int → List (Int × Int)
  | a :: b :: rest => (a, b) :: consecPairs (b :: rest)
  | _ => []

/-- Ascending sort of the timestamp column (`df.sort_values`). -/
def sortInts (l : List Int) : List Int := List.insertionSort (fun a b : Int => a ≤ b) l

/-- Candidate time gaps: the consecutive pairs of the sorted series whose
delta exceeds the allowed slack and stays under the 3-day (4320 minute)
ceiling, before the retention, closure and holiday discards. -/
def gapCandidates (tf : String) (times : List Int) : List (Int × Int) :=
  (consecPairs (sortInts times)).filter fun p =>
    decide (max_allowed_gap tf < p.2 - p.1 ∧ p.2 - p.1 < 4320)

/-- The intraday gap scan of `validate_csv`: on a non-crypto symbol at an
intraday timeframe, walk consecutive bars of the sorted series once; keep
deltas above the slack and under 3 days; for "1m" drop windows entirely at
or before the 7-day retention cutoff; drop windows that are scheduled
closures or whose start date is a holiday.  Crypto symbols and other
timeframes are not scanned at all. -/
def timeGaps (cal : String → Int → Bool) (symbol tf : String) (nowT : Int)
    (times : List Int) : List (Int × Int) :=
  if intradayTimeframes.contains tf && !(isCryptoSym symbol) then
    (consecPairs (sortInts times)).filter fun p =>
      decide (max_allowed_gap tf < p.2 - p.1 ∧ p.2 - p.1 < 4320) &&
      !(tf == "1m" && decide (p.2 ≤ nowT - 10080)) &&
      !(closed_window symbol p.1 p.2 (some tf) || is_holiday cal p.1 symbol)
  else []

/-- Count of rows marked by `df.duplicated(subset=Datetime)`: rows whose
timestamp already occurred earlier in the frame.  `seen` is the list of
timestamps encountered so far. -/
def dupCountAux : List Int → List Bar → Nat
  | _, [] => 0
  | seen, b :: rest =>
    (if seen.contains b.ts then 1 else 0) + dupCountAux (b.ts :: seen) rest

/-- Duplicate-timestamp count reported by `validate_csv`. -/
def duplicateCount (bars : List Bar) : Nat := dupCountAux [] bars

/-- Count of OHLC-inconsistent rows reported by `validate_csv`. -/
def invalidOhlcCount (bars : List Bar) : Nat :=
  bars.countP fun b =>
    decide (b.hi < b.lo ∨ b.hi < b.op ∨ b.hi < b.cl ∨ b.lo > b.op ∨ b.lo > b.cl)

/-- Count of rows with a negative price reported by `validate_csv`. -/
def negativeCount (bars : List Bar) : Nat :=
  bars.countP fun b => decide (b.op < 0 ∨ b.hi < 0 ∨ b.lo < 0 ∨ b.cl < 0)

/-- Maximum timestamp of a frame (`df.Datetime.max()`); `validate_csv`
returns before this point on an empty frame, so the zero default is
unreachable. -/
def maxTs : List Bar → Int
  | [] => 0
  | b :: rest => max b.ts (maxTs rest)

/-- The staleness check of `validate_csv`: if the window from the last bar
to now is a scheduled closure, do not complain; otherwise flag per-timeframe
age thresholds (1m: 1h, 5m/15m: 2h, 1h: 6h, 4h: 12h, 1d: 2d). -/
def staleFlag (symbol tf : String) (nowT : Int) (bars : List Bar) : Bool :=
  let lastT := maxTs bars
  if closed_window symbol lastT nowT (some tf) then false
  else
    let age := nowT - lastT
    if tf == "1m" then decide (age > 60)
    else if tf == "5m" || tf == "15m" then decide (age > 120)
    else if tf == "1h" then decide (age > 360)
    else if tf == "4h" then decide (age > 720)
    else if tf == "1d" then decide (age > 2880)
    else false

/-- The issue classes `validate_csv` reports for a non-empty well-formed
frame: duplicate count, invalid-OHLC count, negative-price count, the
intraday time gaps, and the staleness flag. -/
structure ValidateReport where
  duplicates : Nat
  invalidOhlc : Nat
  negativePrices : Nat
  gaps : List (Int × Int)
  stale : Bool
deriving DecidableEq

/-- Embedding of the checks of `validate_csv` on a parsed frame. -/
def validateReport (cal : String → Int → Bool) (symbol tf : String) (nowT : Int)
    (bars : List Bar) : ValidateReport :=
  { duplicates := duplicateCount bars
    invalidOhlc := invalidOhlcCount bars
    negativePrices := negativeCount bars
    gaps := timeGaps cal symbol tf nowT (bars.map Bar.ts)
    stale := staleFlag symbol tf nowT bars }

/-! ### Reconciliation engine embedding (`update_symbol_timeframe`) -/

/-- Yahoo per-request bar cap: 8000 for every timeframe (`MAX_BARS`). -/
def MAX_BARS : Nat := 8000

/-- Source `EXPECTED_DELTA` in minutes; its entries coincide with
`TF_TO_MINUTES` (1W = 7 days, 1mo = 30 days, 3mo = 90 days).  Only the
nine known timeframes reach it, so the zero default is unreachable. -/
def expected_delta (tf : String) : Int :=
  match TF_TO_MINUTES.lookup tf with
  | some m => (m : Int)
  | none => 0

/-- Outcome of one provider chunk request inside the backfill loop: bars,
an empty "prices missing" response (skip-and-continue), or an unexpected
error (a raised exception). -/
inductive ChunkResult where
  | ok (bars : List Bar)
  | missing
  | err
deriving DecidableEq

/-- Result of the backfill chunk loop: accumulated sanitized bars, the
windows for which a provider request was actually issued, and whether an
unexpected error aborted the loop.  On an error the accumulated data is
discarded by the caller. -/
structure BackfillOut where
  acc : List Bar
  fetched : List (Int × Int)
  errored : Bool
deriving DecidableEq

/-- The chunked backfill loop of `update_symbol_timeframe`, fuel-indexed.
Each iteration consumes `min remaining MAX_BARS ≥ 1` missing bars, so fuel
equal to the initial missing count always suffices; `backfillLoop` below
supplies it.  For an intraday timeframe a chunk whose whole window is a
scheduled closure is skipped without a request; otherwise the provider is
consulted: an unexpected error aborts the loop (the source exception),
a missing-data response just continues, and returned bars are sanitized
(`badRow`) and accumulated. -/
def backfillAux (symKey tf : String) (fetch : Int → ChunkResult) :
    Nat → Int → Nat → BackfillOut
  | 0, _, _ => ⟨[], [], false⟩
  | fuel + 1, startT, remaining =>
    if remaining == 0 then ⟨[], [], false⟩
    else
      let chunk := min remaining MAX_BARS
      let endT := startT + (chunk : Int) * expected_delta tf
      if intradayTimeframes.contains tf && closed_window symKey startT endT (some tf) then
        backfillAux symKey tf fetch fuel endT (remaining - chunk)
      else
        match fetch startT with
        | ChunkResult.err => ⟨[], [(startT, endT)], true⟩
        | ChunkResult.missing =>
          let r := backfillAux symKey tf fetch fuel endT (remaining - chunk)
          ⟨r.acc, (startT, endT) :: r.fetched, r.errored⟩
        | ChunkResult.ok bars =>
          let good := bars.filter fun b => !(badRow b)
          let r := backfillAux symKey tf fetch fuel endT (remaining - chunk)
          ⟨good ++ r.acc, (startT, endT) :: r.fetched, r.errored⟩

/-- The backfill loop entered with cursor `startT` and `expectedBars`
missing bars. -/
def backfillLoop (symKey tf : String) (fetch : Int → ChunkResult)
    (startT : Int) (expectedBars : Nat) : BackfillOut :=
  backfillAux symKey tf fetch expectedBars startT expectedBars

/-- The single-bar incremental path of `update_symbol_timeframe`:
`fetch_latest_bar` yields `none` on error, empty data, a holiday skip or
an invalid bar; a bar whose timestamp is already stored is a no-op; an
invalid bar is dropped; otherwise the bar is appended, sorted and saved. -/
def incrementalUpdate (existing : List Bar) (latest : Option Bar) : List Bar :=
  match latest with
  | none => existing
  | some b =>
    if tsMem b.ts existing then existing
    else if badRow b then existing
    else save_data (sortBars (existing ++ [b]))

/-- Timestamp of the last stored row (`iloc[-1]`); stored series are
sorted, so this is their maximum.  The zero default is unreachable: the
branch modelled here requires a non-empty existing series. -/
def lastRowTs : List Bar → Int
  | [] => 0
  | [b] => b.ts
  | _ :: rest => lastRowTs rest

/-- Outcome of one reconciliation cycle: the stored series afterwards,
whether the backfill loop aborted with an unexpected fetch error, and
whether the single-bar incremental path ran in the same cycle. -/
structure CycleOut where
  series : List Bar
  backfillErrored : Bool
  incrementalRan : Bool
deriving DecidableEq

/-- One reconciliation cycle of `update_symbol_timeframe` for a non-empty
existing series.  `expected_bars = (now - last)/delta` (the source
truncates the real ratio toward zero; backfill only happens with `now`
past the last bar, where this matches the floor used here).  More than one
missing bar enters the chunked backfill; an errored or fruitless backfill
falls through to the single-bar incremental path, a successful merge
returns without running it.  At most one missing bar goes straight to the
incremental path. -/
def update_symbol_timeframe (symKey tf : String) (existing : List Bar) (nowT : Int)
    (fetch : Int → ChunkResult) (latest : Option Bar) : CycleOut :=
  let lastT := lastRowTs existing
  let expectedBars := ((nowT - lastT).ediv (expected_delta tf)).toNat
  if expectedBars > 1 then
    let startT := lastT + expected_delta tf
    let r := backfillLoop symKey tf fetch startT expectedBars
    if r.errored then ⟨incrementalUpdate existing latest, true, true⟩
    else
      let fresh := r.acc.filter fun b => !(tsMem b.ts existing)
      if fresh.isEmpty then ⟨incrementalUpdate existing latest, false, true⟩
      else ⟨save_data (sortBars (existing ++ fresh)), false, false⟩
  else ⟨incrementalUpdate existing latest, false, true⟩

/-! ### Concrete data for counterexamples and witnesses

Times are minutes since the Monday-00:00 epoch: day 11 is the Friday of
week 1 (17100 = Fri 21:00, 17160 = Fri 22:00, 17220 = Fri 23:00, 18660 =
Sat 23:00, 17280 = Sat 00:00), day 14 the Monday of week 2 (20160), and
10080 the Monday of week 1. -/

/-- Calendar with exactly one holiday: USD on day 15 (a Tuesday). -/
def c2cal : String → Int → Bool := fun c d => c == "USD" && d == 15

/-- Calendar with exactly one holiday: USD on day 14 (a Monday). -/
def c2wcal : String → Int → Bool := fun c d => c == "USD" && d == 14

/-- A one-bar stored series ending Monday 00:00 of week 2. -/
def c5existing : List Bar := [⟨20160, 1, 2, 1, 1, 0⟩]

/-- A provider that fails every chunk request with an unexpected error. -/
def c5fetch : Int → ChunkResult := fun _ => ChunkResult.err

/-- A valid latest bar two minutes past the stored tail. -/
def c5latest : Option Bar := some ⟨20162, 1, 2, 1, 1, 0⟩

/-- A one-bar stored series ending Monday 00:00 of week 3. -/
def c5wexisting : List Bar := [⟨30240, 1, 2, 1, 1, 0⟩]

/-- A two-bar stored series in normal form (sorted, valid rows). -/
def c7S : List Bar := [⟨1, 1, 2, 1, 1, 0⟩, ⟨2, 1, 3, 1, 2, 5⟩]

/-- A bar set already contained in `c7S`. -/
def c7B : List Bar := [⟨2, 1, 3, 1, 2, 5⟩]

/-! ## Store lemmas -/

/-- Membership reading of `tsMem`. -/
theorem tsMem_iff {t : Int} {l : List Bar} : tsMem t l = true ↔ ∃ b ∈ l, b.ts = t := by
  simp [tsMem, List.any_eq_true, beq_iff_eq]

/-- A last occurrence exists exactly when the timestamp occurs. -/
theorem lastAt_isSome (l : List Bar) (t : Int) : (lastAt l t).isSome = tsMem t l := by
  induction l with
  | nil => rfl
  | cons b rest ih =>
    simp only [lastAt, tsMem, List.any_cons]
    cases h : lastAt rest t with
    | some x =>
      have : tsMem t rest = true := by rw [← ih, h]; rfl
      simp [tsMem] at this
      simp [this, tsMem]
    | none =>
      have : tsMem t rest = false := by rw [← ih, h]; rfl
      simp [tsMem] at this
      by_cases hb : b.ts = t
      · simp [hb, tsMem]
      · simp [hb, tsMem, this]
        intro x hx
        exact fun h' => (this x hx h').elim

/-- The last occurrence at `t` is a member carrying timestamp `t`. -/
theorem lastAt_mem {l : List Bar} {t : Int} {x : Bar} (h : lastAt l t = some x) :
    x ∈ l ∧ x.ts = t := by
  induction l with
  | nil => simp [lastAt] at h
  | cons b rest ih =>
    simp only [lastAt] at h
    cases h' : lastAt rest t with
    | some y =>
      rw [h'] at h
      obtain rfl : y = x := by simpa using h
      exact ⟨List.mem_cons_of_mem _ (ih h').1, (ih h').2⟩
    | none =>
      rw [h'] at h
      by_cases hb : b.ts = t
      · rw [if_pos hb] at h
        obtain rfl : b = x := by simpa using h
        exact ⟨List.mem_cons_self _ _, hb⟩
      · rw [if_neg hb] at h; exact absurd h (by simp)

/-- Last occurrences across an append prefer the right-hand list. -/
theorem lastAt_append (u v : List Bar) (t : Int) :
    lastAt (u ++ v) t =
      match lastAt v t with
      | some x => some x
      | none => lastAt u t := by
  induction u with
  | nil =>
    rw [List.nil_append]
    cases lastAt v t <;> rfl
  | cons b u ih =>
    rw [List.cons_append]
    simp only [lastAt, ih]
    cases lastAt v t with
    | some x => rfl
    | none => cases lastAt u t <;> rfl

/-- `dedupKeepLast` keeps exactly the last occurrence of each timestamp. -/
theorem mem_dedupKeepLast {l : List Bar} {x : Bar} :
    x ∈ dedupKeepLast l ↔ lastAt l x.ts = some x := by
  induction l with
  | nil => simp [dedupKeepLast, lastAt]
  | cons b rest ih =>
    simp only [dedupKeepLast, lastAt]
    by_cases hm : tsMem b.ts rest = true
    · rw [if_pos hm]
      cases h' : lastAt rest x.ts with
      | some y => rw [ih, h']
      | none =>
        rw [ih, h']
        have hnone : tsMem x.ts rest = false := by rw [← lastAt_isSome, h']; rfl
        constructor
        · intro h; exact absurd h (by simp)
        · intro h
          by_cases hb : b.ts = x.ts
          · rw [hb] at hm; rw [hm] at hnone; exact absurd hnone (by simp)
          · rw [if_neg hb] at h; exact absurd h (by simp)
    · rw [if_neg hm]
      have hm' : tsMem b.ts rest = false := by revert hm; cases tsMem b.ts rest <;> simp
      simp only [List.mem_cons, ih]
      cases h' : lastAt rest x.ts with
      | some y =>
        constructor
        · rintro (rfl | h)
          · exfalso
            have hs : tsMem x.ts rest = true := by rw [← lastAt_isSome, h']; rfl
            rw [hs] at hm'; exact absurd hm' (by simp)
          · exact h
        · intro h; exact Or.inr h
      | none =>
        by_cases hb : b.ts = x.ts
        · rw [if_pos hb]
          constructor
          · rintro (rfl | h)
            · rfl
            · exact absurd h (by simp)
          · intro h
            obtain rfl : b = x := by simpa using h
            exact Or.inl rfl
        · rw [if_neg hb]
          constructor
          · rintro (rfl | h)
            · exact absurd rfl hb
            · exact absurd h (by simp)
          · intro h; exact absurd h (by simp)

/-- Deduplication only removes rows. -/
theorem dedupKeepLast_sublist (l : List Bar) : (dedupKeepLast l).Sublist l := by
  induction l with
  | nil => simp [dedupKeepLast]
  | cons b rest ih =>
    simp only [dedupKeepLast]
    by_cases hm : tsMem b.ts rest = true
    · rw [if_pos hm]; exact ih.cons b
    · rw [if_neg hm]; exact ih.cons₂ b

/-- Deduplicated frames have pairwise distinct timestamps. -/
theorem dedupKeepLast_pairwise (l : List Bar) :
    List.Pairwise (fun a b : Bar => a.ts ≠ b.ts) (dedupKeepLast l) := by
  induction l with
  | nil => simp [dedupKeepLast]
  | cons b rest ih =>
    simp only [dedupKeepLast]
    by_cases hm : tsMem b.ts rest = true
    · rw [if_pos hm]; exact ih
    · rw [if_neg hm]
      refine List.Pairwise.cons ?_ ih
      intro x hx hts
      have hxr : x ∈ rest := (dedupKeepLast_sublist rest).subset hx
      exact hm (tsMem_iff.mpr ⟨x, hxr, hts.symm⟩)

/-- Pairwise-distinct timestamps survive a permutation. -/
theorem pairwise_ne_of_perm {l l' : List Bar} (p : l.Perm l')
    (h : List.Pairwise (fun a b : Bar => a.ts ≠ b.ts) l) :
    List.Pairwise (fun a b : Bar => a.ts ≠ b.ts) l' :=
  (p.pairwise_iff fun hab he => hab he.symm).mp h

/-- Sorting permutes the frame. -/
theorem sortBars_perm (l : List Bar) : (sortBars l).Perm l :=
  List.perm_insertionSort barLE l

/-- Sorting preserves membership. -/
theorem mem_sortBars {l : List Bar} {x : Bar} : x ∈ sortBars l ↔ x ∈ l :=
  (sortBars_perm l).mem_iff

/-- Sorting sorts. -/
theorem sortBars_sorted (l : List Bar) : List.Pairwise barLE (sortBars l) :=
  List.sorted_insertionSort barLE l

/-- The saved frame has strictly increasing timestamps. -/
theorem save_data_strictSorted (l : List Bar) :
    List.Pairwise (fun a b : Bar => a.ts < b.ts) (save_data l) := by
  unfold save_data
  have h1 : List.Pairwise (fun a b : Bar => a.ts ≠ b.ts)
      ((dedupKeepLast l).filter fun b => !(badRow b)) :=
    (dedupKeepLast_pairwise l).sublist (List.filter_sublist _)
  have h2 := pairwise_ne_of_perm (sortBars_perm _).symm h1
  have h3 := sortBars_sorted ((dedupKeepLast l).filter fun b => !(badRow b))
  exact (h3.and h2).imp fun h => lt_of_le_of_ne h.1 h.2

/-- Membership in a saved frame: good rows that are the last occurrence of
their timestamp. -/
theorem mem_save_data {l : List Bar} {x : Bar} :
    x ∈ save_data l ↔ (badRow x = false ∧ lastAt l x.ts = some x) := by
  unfold save_data
  rw [mem_sortBars, List.mem_filter, mem_dedupKeepLast]
  rw [Bool.not_eq_true', and_comm]

/-- On a frame with pairwise distinct timestamps, every member is the last
occurrence of its timestamp. -/
theorem lastAt_of_mem_pairwise {l : List Bar} {x : Bar}
    (h : List.Pairwise (fun a b : Bar => a.ts ≠ b.ts) l) (hx : x ∈ l) :
    lastAt l x.ts = some x := by
  induction l with
  | nil => exact absurd hx (by simp)
  | cons b rest ih =>
    simp only [lastAt]
    rcases List.mem_cons.mp hx with rfl | hx'
    · cases h' : lastAt rest x.ts with
      | some y =>
        exfalso
        obtain ⟨hy, hyts⟩ := lastAt_mem h'
        exact List.rel_of_pairwise_cons h hy hyts.symm
      | none => rw [if_pos rfl]
    · rw [ih h.of_cons hx']

/-- Two members of a timestamp-distinct frame with the same timestamp are
the same row. -/
theorem eq_of_mem_pairwise_ts :
    ∀ {l : List Bar}, List.Pairwise (fun a b : Bar => a.ts ≠ b.ts) l →
      ∀ {x y : Bar}, x ∈ l → y ∈ l → x.ts = y.ts → x = y := by
  intro l
  induction l with
  | nil => intro _ x y hx _ _; exact absurd hx (by simp)
  | cons a rest ih =>
    intro hp x y hx hy h
    rcases List.mem_cons.mp hx with rfl | hx' <;> rcases List.mem_cons.mp hy with rfl | hy'
    · rfl
    · exact absurd h (List.rel_of_pairwise_cons hp hy')
    · exact absurd h.symm (List.rel_of_pairwise_cons hp hx')
    · exact ih hp.of_cons hx' hy' h

/-- Strictly sorted frames with the same members are equal. -/
theorem strictSorted_eq_of_mem_iff :
    ∀ {l₁ l₂ : List Bar}, List.Pairwise (fun a b : Bar => a.ts < b.ts) l₁ →
      List.Pairwise (fun a b : Bar => a.ts < b.ts) l₂ →
      (∀ x, x ∈ l₁ ↔ x ∈ l₂) → l₁ = l₂
  | [], [], _, _, _ => rfl
  | [], b :: l₂, _, _, h => absurd ((h b).mpr (List.mem_cons_self _ _)) (by simp)
  | a :: l₁, [], _, _, h => absurd ((h a).mp (List.mem_cons_self _ _)) (by simp)
  | a :: l₁, b :: l₂, h₁, h₂, h => by
    have hab : a = b := by
      rcases List.mem_cons.mp ((h a).mp (List.mem_cons_self _ _)) with h' | h'
      · exact h'
      · rcases List.mem_cons.mp ((h b).mpr (List.mem_cons_self _ _)) with h'' | h''
        · exact h''.symm
        · exact absurd (lt_trans (List.rel_of_pairwise_cons h₂ h')
            (List.rel_of_pairwise_cons h₁ h'')) (lt_irrefl _)
    subst hab
    have htail : ∀ x, x ∈ l₁ ↔ x ∈ l₂ := by
      intro x
      constructor
      · intro hx
        rcases List.mem_cons.mp ((h x).mp (List.mem_cons_of_mem _ hx)) with rfl | h'
        · exact absurd (List.rel_of_pairwise_cons h₁ hx) (lt_irrefl _)
        · exact h'
      · intro hx
        rcases List.mem_cons.mp ((h x).mpr (List.mem_cons_of_mem _ hx)) with rfl | h'
        · exact absurd (List.rel_of_pairwise_cons h₂ hx) (lt_irrefl _)
        · exact h'
    rw [strictSorted_eq_of_mem_iff h₁.of_cons h₂.of_cons htail]

/-- Membership in a merged series: good rows that are the last occurrence
of their timestamp in the concatenated input. -/
theorem mem_merge_series {s b : List Bar} {x : Bar} :
    x ∈ merge_series s b ↔ (badRow x = false ∧ lastAt (s ++ b) x.ts = some x) := by
  unfold merge_series
  rw [mem_save_data]
  constructor
  · rintro ⟨hb, hl⟩
    refine ⟨hb, ?_⟩
    obtain ⟨hm, -⟩ := lastAt_mem hl
    rw [mem_sortBars, mem_dedupKeepLast] at hm
    exact hm
  · rintro ⟨hb, hl⟩
    refine ⟨hb, ?_⟩
    have hx : x ∈ sortBars (dedupKeepLast (s ++ b)) := by
      rw [mem_sortBars, mem_dedupKeepLast]; exact hl
    have hp : List.Pairwise (fun a b : Bar => a.ts ≠ b.ts)
        (sortBars (dedupKeepLast (s ++ b))) :=
      pairwise_ne_of_perm (sortBars_perm _).symm (dedupKeepLast_pairwise _)
    exact lastAt_of_mem_pairwise hp hx

/-- A merged series has strictly increasing timestamps. -/
theorem merge_series_strictSorted (s b : List Bar) :
    List.Pairwise (fun a b : Bar => a.ts < b.ts) (merge_series s b) :=
  save_data_strictSorted _

/-- Merging the same bar set a second time changes nothing. -/
theorem merge_series_self_idem (s b : List Bar) :
    merge_series (merge_series s b) b = merge_series s b := by
  refine strictSorted_eq_of_mem_iff (merge_series_strictSorted _ _)
    (merge_series_strictSorted _ _) fun x => ?_
  rw [mem_merge_series, mem_merge_series]
  rw [lastAt_append (merge_series s b) b, lastAt_append s b]
  cases h' : lastAt b x.ts with
  | some y => exact Iff.rfl
  | none =>
    constructor
    · rintro ⟨hb, hl⟩
      have hl' : lastAt (merge_series s b) x.ts = some x := hl
      have hmem := mem_merge_series.mp (lastAt_mem hl').1
      rw [lastAt_append s b, h'] at hmem
      exact ⟨hb, hmem.2⟩
    · rintro ⟨hb, hl⟩
      have hl' : lastAt s x.ts = some x := hl
      refine ⟨hb, ?_⟩
      have hx : x ∈ merge_series s b := by
        rw [mem_merge_series, lastAt_append s b, h']
        exact ⟨hb, hl'⟩
      have hp : List.Pairwise (fun a b : Bar => a.ts ≠ b.ts) (merge_series s b) :=
        (merge_series_strictSorted s b).imp fun h => ne_of_lt h
      exact lastAt_of_mem_pairwise hp hx

/-- Merging a bar set already contained in a stored series (sorted, all
rows valid) changes nothing. -/
theorem merge_series_contained (S b : List Bar)
    (hs : List.Pairwise (fun x y : Bar => x.ts < y.ts) S)
    (hgood : ∀ x ∈ S, badRow x = false)
    (hsub : ∀ x ∈ b, x ∈ S) : merge_series S b = S := by
  have hp : List.Pairwise (fun a b : Bar => a.ts ≠ b.ts) S :=
    hs.imp fun h => ne_of_lt h
  refine strictSorted_eq_of_mem_iff (merge_series_strictSorted _ _) hs fun x => ?_
  rw [mem_merge_series, lastAt_append S b]
  constructor
  · rintro ⟨hb, hl⟩
    cases h' : lastAt b x.ts with
    | some y =>
      rw [h'] at hl
      have hl' : some y = some x := hl
      obtain rfl : y = x := by simpa using hl'
      exact hsub _ (lastAt_mem h').1
    | none =>
      rw [h'] at hl
      have hl' : lastAt S x.ts = some x := hl
      exact (lastAt_mem hl').1
  · intro hx
    refine ⟨hgood x hx, ?_⟩
    cases h' : lastAt b x.ts with
    | some y =>
      obtain ⟨hyb, hyts⟩ := lastAt_mem h'
      have hyS : y ∈ S := hsub y hyb
      rw [eq_of_mem_pairwise_ts hp hyS hx hyts]
    | none => exact lastAt_of_mem_pairwise hp hx

/-- The backfill loop does not depend on its fuel once the fuel covers the
remaining bar count (each iteration consumes at least one bar). -/
theorem backfillAux_fuel_eq (symKey tf : String) (fetch : Int → ChunkResult) :
    ∀ f1 f2 startT remaining, remaining ≤ f1 → remaining ≤ f2 →
      backfillAux symKey tf fetch f1 startT remaining =
        backfillAux symKey tf fetch f2 startT remaining := by
  intro f1
  induction f1 with
  | zero =>
    intro f2 s r h1 h2
    obtain rfl : r = 0 := Nat.le_zero.mp h1
    cases f2 <;> simp [backfillAux]
  | succ f1 ih =>
    intro f2 s r h1 h2
    cases f2 with
    | zero =>
      obtain rfl : r = 0 := Nat.le_zero.mp h2
      simp [backfillAux]
    | succ f2 =>
      by_cases hr : r = 0
      · subst hr; simp [backfillAux]
      · have hne : (r == 0) = false := by simp [hr]
        have hch : 1 ≤ min r MAX_BARS := by
          have h1' : 1 ≤ r := Nat.one_le_iff_ne_zero.mpr hr
          have h2' : 1 ≤ MAX_BARS := by norm_num [MAX_BARS]
          exact Nat.le_min.mpr ⟨h1', h2'⟩
        have hrec1 : r - min r MAX_BARS ≤ f1 := by omega
        have hrec2 : r - min r MAX_BARS ≤ f2 := by omega
        simp only [backfillAux, hne, Bool.false_eq_true, if_false]
        split_ifs with hcl
        · exact ih f2 _ _ hrec1 hrec2
        · cases fetch s with
          | ok bars => rw [ih f2 _ _ hrec1 hrec2]
          | missing => rw [ih f2 _ _ hrec1 hrec2]
          | err => rfl

/-! ## Claim theorems -/

/-- Claim C1, counterexample.  The claim states that `closed_window` is
true iff the whole interval is fully explained by scheduled
unavailability.  On `eurusd` the interval [Fri 21:00, Fri 23:00) UTC is
reported closed although the instant Fri 21:30 inside it is covered by no
scheduled-unavailability window at all (the weekend starts Fri 22:00, the
daily break is 05:00-06:00, and the calendar here has no holidays), so the
interval also contains open time. -/
theorem c1_counterexample :
    closed_window "eurusd" 17100 17220 (some "1h") = true ∧
    ((17100 : Int) ≤ 17130 ∧ (17130 : Int) < 17220) ∧
    spec_instant_closed emptyCal "eurusd" 17130 (some "1h") = false := by decide

/-- Claim C1, amended.  `closed_window` returns true iff the half-open
interval [start, end) overlaps one of the scheduled closure windows it
models (weekly closure or non-skipped daily break for profiled
instruments; the Friday 22:00 + 48h fallback window for two-currency
instruments without a profile); overlap, not containment, so intervals
that also contain open time can be reported closed. -/
theorem c1_amended (sym : String) (s e : Int) (tf : Option String) :
    closed_window sym s e tf = true ↔
      ∃ w ∈ modelWindows sym s tf, s < w.2 ∧ w.1 < e := by
  unfold closed_window modelWindows
  cases h : cfgOf sym with
  | some cfg =>
    by_cases hw : s < weekendEndOf cfg s ∧ weekendStartOf cfg s < e
    · simp only [if_pos hw, List.mem_cons]
      exact ⟨fun _ => ⟨(weekendStartOf cfg s, weekendEndOf cfg s), Or.inl rfl, hw⟩,
        fun _ => trivial⟩
    · simp only [if_neg hw, List.any_eq_true, List.mem_cons, List.mem_map, List.mem_filter]
      constructor
      · rintro ⟨brk, hbrk, hval⟩
        by_cases hsk : break_skipped tf brk = true
        · rw [if_pos hsk] at hval; exact absurd hval (by simp)
        · rw [if_neg hsk] at hval
          have hov := of_decide_eq_true hval
          exact ⟨breakWindow s brk, Or.inr ⟨brk, ⟨hbrk, by simp [hsk]⟩, rfl⟩, hov.1, hov.2⟩
      · rintro ⟨w, hw', hov⟩
        rcases hw' with heq | ⟨brk, ⟨hbrk, hns⟩, rfl⟩
        · subst heq; exact absurd hov hw
        · refine ⟨brk, hbrk, ?_⟩
          have hsk : break_skipped tf brk = false := by
            simpa using hns
          rw [if_neg (by simp [hsk])]
          exact decide_eq_true hov
  | none =>
    by_cases hfx : ((get_symbol_currencies sym).length == 2) = true
    · simp only [if_pos hfx, List.mem_singleton]
      constructor
      · intro hd
        exact ⟨(fxWeekendStart s, fxWeekendStart s + 2880), rfl,
          (of_decide_eq_true hd).1, (of_decide_eq_true hd).2⟩
      · rintro ⟨w, rfl, h1, h2⟩
        exact decide_eq_true ⟨h1, h2⟩
    · simp only [if_neg hfx]
      simp

/-- Claim C2, counterexample.  The claim states that a holiday date
strictly between start and end (exclusive day boundaries) makes the
classifier report the interval closed.  With a USD holiday on day 15 (a
Tuesday) strictly between the interval Monday 12:00 (day 14) and Wednesday
12:00 (day 16), the combined check on `gold` at "1d" still reports open:
the code only consults the calendar at the date of `start`. -/
theorem c2_counterexample :
    dayIndex 20880 = 14 ∧ dayIndex 23760 = 16 ∧
    ((14 : Int) < 15 ∧ (15 : Int) < 16) ∧
    c2cal "USD" 15 = true ∧ "USD" ∈ get_symbol_currencies "gold" ∧
    closed_or_holiday c2cal "gold" 20880 23760 (some "1d") = false := by decide

/-- Claim C2, amended.  If the calendar date of `start` is a holiday for
some currency of the instrument's exposure (among the supported calendar
currencies), the combined validator check reports the interval closed;
holidays on later dates strictly inside the interval are not consulted. -/
theorem c2_amended (cal : String → Int → Bool) (sym : String) (s e : Int)
    (tf : Option String) (c : String)
    (hc : c ∈ get_symbol_currencies sym) (hsup : c ∈ supportedHolidayCurrencies)
    (hcal : cal c (dayIndex s) = true) :
    closed_or_holiday cal sym s e tf = true := by
  unfold closed_or_holiday is_holiday
  refine Bool.or_eq_true_iff.mpr (Or.inr ?_)
  rw [List.any_eq_true]
  refine ⟨c, hc, ?_⟩
  rw [Bool.and_eq_true]
  exact ⟨List.elem_eq_true_of_mem hsup, hcal⟩

/-- Claim C2, witness: `gold` with a USD holiday on the start date (day
14) is reported closed. -/
theorem c2_witness : closed_or_holiday c2wcal "gold" 20880 23760 (some "1d") = true :=
  c2_amended c2wcal "gold" 20880 23760 (some "1d") "USD" (by decide) (by decide) (by decide)

/-- Claim C3, counterexample.  The claim states the fallback window starts
at the most recent Friday 22:00 at or before `start`.  For the
two-currency, profile-less instrument `nzdusd` and the interval
[Fri 21:00, Fri 23:00), the most recent Friday 22:00 at or before start is
the previous week's (7080), whose 48h window [7080, 9960) does not overlap
the interval, yet `closed_window` reports closed: the code sets 22:00 on
the rolled-back Friday day, which here lies after `start`. -/
theorem c3_counterexample :
    (get_symbol_currencies "nzdusd").length = 2 ∧ cfgOf "nzdusd" = none ∧
    closed_window "nzdusd" 17100 17220 (some "1h") = true ∧
    ¬((17100 : Int) < spec_lastFri22 17100 + 2880 ∧ spec_lastFri22 17100 < 17220) := by
  decide

/-- Claim C3, amended.  For a two-currency instrument with no session
profile, `closed_window` is true exactly when [start, end) overlaps the
48-hour window starting at 22:00 of the most recent Friday calendar day on
or before start's date; when start falls on a Friday before 22:00 that
window start lies after `start` itself. -/
theorem c3_amended (sym : String) (s e : Int) (tf : Option String)
    (h2 : (get_symbol_currencies sym).length = 2) (hno : cfgOf sym = none) :
    closed_window sym s e tf = true ↔
      (s < fxWeekendStart s + 2880 ∧ fxWeekendStart s < e) := by
  unfold closed_window
  rw [hno]
  have hb : ((get_symbol_currencies sym).length == 2) = true := by simp [h2]
  simp [hb]

/-- Claim C3, witness: the spec's concrete case, Friday 23:00 to Saturday
23:00 UTC on a two-currency instrument without a profile, is closed. -/
theorem c3_witness : closed_window "nzdusd" 17220 18660 (some "1h") = true :=
  (c3_amended "nzdusd" 17220 18660 (some "1h") (by decide) (by decide)).mpr (by decide)

/-- Claim C4, counterexample.  The claim asserts the skip for every
(instrument, timeframe) pair entering backfill, but the source guards the
closure check with the intraday timeframe list: on `eurusd` at "1d" a
one-chunk window [Sat 00:00, Sun 00:00) is reported closed, yet the loop
still issues the provider request for exactly that window. -/
theorem c4_counterexample :
    closed_window "eurusd" 17280 18720 (some "1d") = true ∧
    (backfillLoop "eurusd" "1d" (fun _ => ChunkResult.missing) 17280 1).fetched
      = [(17280, 18720)] := by decide

/-- Claim C4, amended.  During backfill at an intraday timeframe (1m, 5m,
15m, 1h, 4h), a chunk whose whole window the classifier reports closed is
skipped without a provider request: the loop continues at the chunk end
with the missing count decremented by the chunk size, and its outcome
(accumulated bars, issued requests, error flag) is exactly that of the
continuation. -/
theorem c4_amended (symKey tf : String) (fetch : Int → ChunkResult) (startT : Int)
    (remaining : Nat) (hr : remaining ≠ 0)
    (hintra : intradayTimeframes.contains tf = true)
    (hclosed : closed_window symKey startT
      (startT + ((min remaining MAX_BARS : Nat) : Int) * expected_delta tf) (some tf) = true) :
    backfillLoop symKey tf fetch startT remaining =
      backfillLoop symKey tf fetch
        (startT + ((min remaining MAX_BARS : Nat) : Int) * expected_delta tf)
        (remaining - min remaining MAX_BARS) := by
  obtain ⟨r, rfl⟩ : ∃ r, remaining = r + 1 := ⟨remaining - 1, by omega⟩
  unfold backfillLoop
  have hne : ((r + 1 : Nat) == 0) = false := by simp
  conv_lhs => rw [backfillAux]
  simp only [hne, Bool.false_eq_true, if_false]
  rw [if_pos (by rw [hintra, hclosed]; rfl)]
  have hch : 1 ≤ min (r + 1) MAX_BARS := by
    have h2' : 1 ≤ MAX_BARS := by norm_num [MAX_BARS]
    exact Nat.le_min.mpr ⟨by omega, h2'⟩
  exact backfillAux_fuel_eq symKey tf fetch r _ _ _ (by omega) (by omega)

/-- Claim C4, witness: a closed two-bar chunk on `eurusd` at "1h" is
skipped, the loop continuing at the advanced cursor with zero remaining. -/
theorem c4_witness :
    (2 : Nat) ≠ 0 ∧ intradayTimeframes.contains "1h" = true ∧
    closed_window "eurusd" 17280 (17280 + ((min 2 MAX_BARS : Nat) : Int) * expected_delta "1h")
      (some "1h") = true ∧
    backfillLoop "eurusd" "1h" (fun _ => ChunkResult.missing) 17280 2 =
      backfillLoop "eurusd" "1h" (fun _ => ChunkResult.missing)
        (17280 + ((min 2 MAX_BARS : Nat) : Int) * expected_delta "1h") (2 - min 2 MAX_BARS) :=
  ⟨by decide, by decide, by decide,
    c4_amended "eurusd" "1h" (fun _ => ChunkResult.missing) 17280 2
      (by decide) (by decide) (by decide)⟩

/-- Claim C5, counterexample.  The claim states that after an unexpected
fetch error the Series is left unchanged and no further fetch-and-merge is
attempted in the cycle.  With three missing bars on `nzdusd` "1m", an
erroring chunk fetch, and a valid latest bar, the backfill loop errors and
the cycle still runs the single-bar incremental path, changing the stored
series in the same cycle. -/
theorem c5_counterexample :
    (backfillLoop "nzdusd" "1m" c5fetch 20161 3).errored = true ∧
    (update_symbol_timeframe "nzdusd" "1m" c5existing 20163 c5fetch c5latest).backfillErrored
      = true ∧
    (update_symbol_timeframe "nzdusd" "1m" c5existing 20163 c5fetch c5latest).incrementalRan
      = true ∧
    (update_symbol_timeframe "nzdusd" "1m" c5existing 20163 c5fetch c5latest).series
      ≠ c5existing := by decide

/-- Claim C5, amended.  When the backfill loop of a cycle aborts with an
unexpected fetch error, the accumulated backfill data is discarded and the
engine falls through to the single-bar incremental path within the same
cycle; only when that single-bar fetch yields nothing is the stored Series
left unchanged, recovery then happening at the next scheduled trigger. -/
theorem c5_amended (symKey tf : String) (existing : List Bar) (nowT : Int)
    (fetch : Int → ChunkResult) (latest : Option Bar)
    (hgt : 1 < ((nowT - lastRowTs existing).ediv (expected_delta tf)).toNat)
    (herr : (backfillLoop symKey tf fetch (lastRowTs existing + expected_delta tf)
      (((nowT - lastRowTs existing).ediv (expected_delta tf)).toNat)).errored = true) :
    update_symbol_timeframe symKey tf existing nowT fetch latest =
      ⟨incrementalUpdate existing latest, true, true⟩ ∧
    (latest = none →
      (update_symbol_timeframe symKey tf existing nowT fetch latest).series = existing) := by
  have hmain : update_symbol_timeframe symKey tf existing nowT fetch latest =
      ⟨incrementalUpdate existing latest, true, true⟩ := by
    unfold update_symbol_timeframe
    simp only [if_pos hgt, herr, if_pos rfl]
    simp
  refine ⟨hmain, fun hnone => ?_⟩
  rw [hmain, hnone]
  rfl

/-- Claim C5, witness: an erroring backfill with a fruitless latest fetch
leaves the stored series unchanged and runs the incremental path. -/
theorem c5_witness :
    update_symbol_timeframe "nzdusd" "1m" c5wexisting 30243 c5fetch none =
      ⟨incrementalUpdate c5wexisting none, true, true⟩ ∧
    (none = (none : Option Bar) →
      (update_symbol_timeframe "nzdusd" "1m" c5wexisting 30243 c5fetch none).series
        = c5wexisting) :=
  c5_amended "nzdusd" "1m" c5wexisting 30243 c5fetch none (by decide) (by decide)

/-- Claim C6.  At an intraday timeframe a consecutive pair of the sorted
series is a candidate gap exactly when its delta exceeds the allowed slack
(two nominal intervals on "1m", one otherwise) and stays under the 3-day
ceiling; and the spec's concrete case holds: a "1m" series with bars at
minutes 10080, 10081, 10085 (Monday 00:00/00:01/00:05, outside every
closed window, inside the retention horizon, no holidays) yields exactly
the one gap (10081, 10085). -/
theorem c6_gap_candidates :
    (∀ (tf : String) (times : List Int) (p : Int × Int), tf ∈ intradayTimeframes →
      (p ∈ gapCandidates tf times ↔
        p ∈ consecPairs (sortInts times) ∧
          max_allowed_gap tf < p.2 - p.1 ∧ p.2 - p.1 < 4320)) ∧
    timeGaps emptyCal "nzdusd" "1m" 10680 [10080, 10081, 10085] = [(10081, 10085)] := by
  constructor
  · intro tf times p _
    simp [gapCandidates, List.mem_filter, and_assoc]
  · decide

/-- Claim C6, witness: the pair (10081, 10085) is a candidate gap of the
example series. -/
theorem c6_witness :
    (10081, 10085) ∈ gapCandidates "1m" [10080, 10081, 10085] :=
  (c6_gap_candidates.1 "1m" [10080, 10081, 10085] (10081, 10085) (by decide)).mpr (by decide)

/-- Claim C7.  The Series Store merge is idempotent: merging an identical
bar set a second time yields the same stored Series, and re-merging input
already contained in a stored series (sorted, all rows valid) changes
nothing. -/
theorem c7_merge_idempotent :
    (∀ s b : List Bar, merge_series (merge_series s b) b = merge_series s b) ∧
    (∀ S b : List Bar, List.Pairwise (fun x y : Bar => x.ts < y.ts) S →
      (∀ x ∈ S, badRow x = false) → (∀ x ∈ b, x ∈ S) →
      merge_series S b = S) :=
  ⟨merge_series_self_idem, merge_series_contained⟩

/-- Claim C7, witness: concrete double merge and contained re-merge. -/
theorem c7_witness :
    merge_series (merge_series c7S c7B) c7B = merge_series c7S c7B ∧
    merge_series c7S c7B = c7S :=
  ⟨c7_merge_idempotent.1 c7S c7B,
   c7_merge_idempotent.2 c7S c7B (by decide) (by decide) (by decide)⟩

/-- Claim C8.  Writing any bar collection, in any order and possibly with
duplicate timestamps, through the Series Store and reading it back yields
a sequence with strictly ascending, duplicate-free timestamps. -/
theorem c8_store_sorted (input : List Bar) :
    List.Pairwise (fun a b : Bar => a.ts < b.ts) (save_data input) ∧
    (List.map Bar.ts (save_data input)).Nodup := by
  refine ⟨save_data_strictSorted input, ?_⟩
  rw [List.Nodup, List.pairwise_map]
  exact (save_data_strictSorted input).imp fun h => ne_of_lt h

/-- Claim C9.  A daily maintenance break is skipped from the closure test
exactly when the timeframe's nominal duration exceeds the break's duration
in minutes; in particular, for the 05:00-06:00 break, "1h" (60 min) does
not skip it while "1d" (1440 min) does, observable on `eurusd` at the
break sub-window Wednesday 05:10-05:20. -/
theorem c9_break_skip :
    (∀ (tfs : String) (b0 b1 : Int), 0 ≤ b1 - b0 → b1 - b0 < 1440 →
      (break_skipped (some tfs) (b0, b1) = true ↔ (tf_minutes tfs : Int) > b1 - b0)) ∧
    break_skipped (some "1h") (300, 360) = false ∧
    break_skipped (some "1d") (300, 360) = true ∧
    closed_window "eurusd" 13270 13280 (some "1h") = true ∧
    closed_window "eurusd" 13270 13280 (some "1d") = false := by
  refine ⟨?_, by decide, by decide, by decide, by decide⟩
  intro tfs b0 b1 h0 h1
  unfold break_skipped
  simp only []
  rw [show ((b0, b1).2 - (b0, b1).1).emod 1440 = b1 - b0 from Int.emod_eq_of_lt h0 h1]
  exact decide_eq_true_iff

/-- Claim C9, witness: the general skip criterion instantiated at the
05:00-06:00 break and timeframe "1h". -/
theorem c9_witness :
    (0 : Int) ≤ 360 - 300 ∧ (360 : Int) - 300 < 1440 ∧
    (break_skipped (some "1h") (300, 360) = true ↔ (tf_minutes "1h" : Int) > 360 - 300) :=
  ⟨by decide, by decide, c9_break_skip.1 "1h" 300 360 (by decide) (by decide)⟩

/-- Claim C10.  For the crypto symbols btc and eth at an intraday
timeframe, the gap scan never reports a candidate time gap regardless of
the series spacing, while the duplicate, OHLC-validity, negative-price and
staleness checks are computed exactly as for any other symbol. -/
theorem c10_crypto_no_gap_scan (cal : String → Int → Bool) (sym tf : String)
    (nowT : Int) (bars : List Bar)
    (hsym : sym = "btc" ∨ sym = "eth") (_htf : tf ∈ intradayTimeframes) :
    (validateReport cal sym tf nowT bars).gaps = [] ∧
    (validateReport cal sym tf nowT bars).duplicates = duplicateCount bars ∧
    (validateReport cal sym tf nowT bars).invalidOhlc = invalidOhlcCount bars ∧
    (validateReport cal sym tf nowT bars).negativePrices = negativeCount bars ∧
    (validateReport cal sym tf nowT bars).stale = staleFlag sym tf nowT bars := by
  refine ⟨?_, rfl, rfl, rfl, rfl⟩
  have hc : isCryptoSym sym = true := by rcases hsym with rfl | rfl <;> decide
  show timeGaps cal sym tf nowT (bars.map Bar.ts) = []
  unfold timeGaps
  rw [hc]
  simp

/-- Claim C10, witness: a btc "1m" series with a four-day hole between its
two bars still reports no time gap. -/
theorem c10_witness :
    (validateReport emptyCal "btc" "1m" 10680
      [⟨0, 1, 2, 1, 1, 0⟩, ⟨10000, 1, 2, 1, 1, 0⟩]).gaps = [] :=
  (c10_crypto_no_gap_scan emptyCal "btc" "1m" 10680
    [⟨0, 1, 2, 1, 1, 0⟩, ⟨10000, 1, 2, 1, 1, 0⟩] (Or.inl rfl) (by decide)).1

end DataCollector
